import Mathlib

/-!
Verification of the jq-like query engine (rq).

The crate root `lib.rs` provides the error taxonomy (`QueryError`), the
helper `type_str`, and the integration tests.  The evaluator modules
(`query`, `index`, `range`, `operators`, `construction`, `parse`) are
declared in `lib.rs` but their sources are not available, so the
evaluation semantics below are modelled from the specification; every
such definition carries a doc comment saying so.  JSON numbers are
modelled as rationals, JSON strings as Lean strings (slicing is
character-based), and JSON objects as insertion-ordered association
lists, following the data model section of the specification.
-/

namespace Rq

/-- The external JSON value type: six variants (null, bool, number,
string, array, object), objects being ordered mappings from strings to
values. -/
inductive Value where
  | null
  | bool (b : Bool)
  | number (n : ℚ)
  | str (s : String)
  | arr (xs : List Value)
  | obj (fields : List (String × Value))
deriving Repr

/-- The evaluation error taxonomy, embedding `QueryError` from `lib.rs`:
`Index(type, keyKind)`, `Iterate(type)`, `ObjectKey(type)`, `Numerical`,
and `Operation(opName, leftType, rightType)`. -/
inductive QueryError where
  | index (t k : String)
  | iter (t : String)
  | objectKey (t : String)
  | numerical
  | operation (op l r : String)
deriving Repr, DecidableEq

/-- Embedding of `type_str` from `lib.rs` lines 30-39: the static name of
the runtime variant of a value. -/
def type_str : Value → String
  | .null => "null"
  | .bool _ => "bool"
  | .number _ => "number"
  | .str _ => "string"
  | .arr _ => "array"
  | .obj _ => "object"

/-- Modelled from the spec: object field access (the `index` module is
missing from the sources).  Returns the bound value, or Null if absent;
indexing Null with any name returns Null; indexing any non-object,
non-null value with a name fails with Index(actualType, "string"). -/
def indexField (v : Value) (key : String) : Except QueryError Value :=
  match v with
  | .obj fields => .ok ((fields.lookup key).getD .null)
  | .null => .ok .null
  | other => .error (.index (type_str other) "string")

/-- Modelled from the spec: array element access (the `index` module is
missing from the sources).  Negative indices count from the end,
out-of-bounds yields Null, indexing Null yields Null, and any other
non-array value fails with Index(actualType, "number"). -/
def indexArray (v : Value) (n : Int) : Except QueryError Value :=
  match v with
  | .arr xs =>
    let i := if n < 0 then n + xs.length else n
    if 0 ≤ i ∧ i < xs.length then .ok (xs.getD i.toNat .null) else .ok .null
  | .null => .ok .null
  | other => .error (.index (type_str other) "number")

/-- Modelled from the spec: resolution of one slice bound against a
length (the `range` module is missing from the sources).  A negative
bound counts from the end; the result is clamped into `[0, length]`. -/
def resolveBound (len : Nat) (b : Int) : Nat :=
  (min (max (if b < 0 then b + len else b) 0) len).toNat

/-- Modelled from the spec: the slice of a list between an optional lower
and upper bound; a missing lower bound defaults to 0, a missing upper
bound to the length. -/
def sliceList {α : Type} (xs : List α) (lo hi : Option Int) : List α :=
  let l := (lo.map (resolveBound xs.length)).getD 0
  let h := (hi.map (resolveBound xs.length)).getD xs.length
  (xs.take h).drop l

/-- Modelled from the spec: slicing a value (the `range` module is
missing from the sources).  Legal on Array and String only, otherwise
fails with Index(actualType, "range"); strings are sliced by
character. -/
def sliceVal (v : Value) (lo hi : Option Int) : Except QueryError Value :=
  match v with
  | .arr xs => .ok (.arr (sliceList xs lo hi))
  | .str s => .ok (.str (sliceList s.toList lo hi).asString)
  | other => .error (.index (type_str other) "range")

/-- Modelled from the spec: iteration over a value (the `index` module is
missing from the sources).  An Array yields its elements in order, an
Object its values in order, and any other value fails with
Iterate(actualType). -/
def iterateVals (v : Value) : Except QueryError (List Value) :=
  match v with
  | .arr xs => .ok xs
  | .obj fields => .ok (fields.map Prod.snd)
  | other => .error (.iter (type_str other))

/-- Modelled from the spec: shallow merge of two objects, right-hand-side
keys overriding (the `operators` module is missing from the sources).
Keys of the left operand keep their positions with the right value when
overridden; fresh right-hand keys are appended in order. -/
def mergeObj (l r : List (String × Value)) : List (String × Value) :=
  (l.map fun p => (p.1, (r.lookup p.1).getD p.2)) ++
    r.filter fun p => (l.lookup p.1).isNone

/-- Modelled from the spec: the binary operator `+` (the `operators`
module is missing from the sources).  Arithmetic sum on numbers,
concatenation on strings and on arrays, shallow merge with rhs override
on objects, identity when either side is Null, and
Operation("add", t1, t2) on every other type pair. -/
def opAdd : Value → Value → Except QueryError Value
  | .number a, .number b => .ok (.number (a + b))
  | .str a, .str b => .ok (.str (a ++ b))
  | .arr a, .arr b => .ok (.arr (a ++ b))
  | .obj a, .obj b => .ok (.obj (mergeObj a b))
  | .null, x => .ok x
  | x, .null => .ok x
  | a, b => .error (.operation "add" (type_str a) (type_str b))

/-- Modelled from the spec: the binary operator `/` (the `operators`
module is missing from the sources).  Arithmetic quotient on numbers
with division by zero failing Numerical, splitting the left string by a
non-empty right string as separator into an array of substrings, and
Operation("divide", t1, t2) on every other type pair.  An empty string
separator is an error per the spec's table row (rhs empty means error),
taken as the Operation error the spec's design notes recommend. -/
def opDiv : Value → Value → Except QueryError Value
  | .number a, .number b =>
    if b = 0 then .error .numerical else .ok (.number (a / b))
  | .str a, .str b =>
    if b = "" then .error (.operation "divide" "string" "string")
    else .ok (.arr ((a.splitOn b).map .str))
  | a, b => .error (.operation "divide" (type_str a) (type_str b))

/-- The binary operators appearing in the claims. -/
inductive Op where
  | add
  | div
deriving Repr, DecidableEq

/-- Modelled from the spec: dispatch of a binary operator to its
type-directed implementation. -/
def applyOp : Op → Value → Value → Except QueryError Value
  | .add, a, b => opAdd a b
  | .div, a, b => opDiv a b

/-- Modelled from the spec: combining the left and right output streams
of a binary operator, every left output with every right output, the
left varying slower; the first error aborts. -/
def combineOp (op : Op) : List Value → List Value → Except QueryError (List Value)
  | [], _ => .ok []
  | x :: xs, ys => do
    let row ← combineRow op x ys
    let rest ← combineOp op xs ys
    .ok (row ++ rest)
where
  combineRow (op : Op) (x : Value) : List Value → Except QueryError (List Value)
    | [] => .ok []
    | y :: ys => do
      let z ← applyOp op x y
      let rest ← combineRow op x ys
      .ok (z :: rest)

/-- Modelled from the spec: a computed object-construction key must be a
string, otherwise the construction fails with ObjectKey(actualType). -/
def keyStr : Value → Except QueryError String
  | .str s => .ok s
  | v => .error (.objectKey (type_str v))

/-- Modelled from the spec: conversion of a whole key stream to strings;
the first non-string key aborts the construction. -/
def keyStrs : List Value → Except QueryError (List String)
  | [] => .ok []
  | v :: vs => do
    let s ← keyStr v
    let rest ← keyStrs vs
    .ok (s :: rest)

mutual
/-- The query AST, following the data model of the spec (`query` module
missing from the sources); the node kinds the claims need.  Index and
slice bounds are integer literals, as arithmetic inside index brackets
is noted as unsupported. -/
inductive Query where
  | identity
  | field (name : String)
  | index (n : Int)
  | slice (lo hi : Option Int)
  | iterate
  | opt (inner : Query)
  | pipe (l r : Query)
  | split (l r : Query)
  | arrayConstr (inner : Query)
  | objectConstr (entries : Entries)
  | literal (v : Value)
  | binop (op : Op) (l r : Query)
/-- An ordered sequence of object-construction entries, each a key query
paired with a value query. -/
inductive Entries where
  | nil
  | cons (key val : Query) (rest : Entries)
end

mutual
/-- Modelled from the spec: the evaluator `execute(query, value)` (the
`query` module is missing from the sources).  One case per AST variant,
producing the ordered output stream or the first error. -/
def execute : Query → Value → Except QueryError (List Value)
  | .identity, v => .ok [v]
  | .field name, v => (indexField v name).map ([·])
  | .index n, v => (indexArray v n).map ([·])
  | .slice lo hi, v => (sliceVal v lo hi).map ([·])
  | .iterate, v => iterateVals v
  | .opt inner, v =>
    match execute inner v with
    | .ok xs => .ok xs
    | .error _ => .ok []
  | .pipe l r, v => do
    let xs ← execute l v
    execList r xs
  | Query.split l r, v => do
    let xs ← execute l v
    let ys ← execute r v
    .ok (xs ++ ys)
  | .arrayConstr inner, v => (execute inner v).map fun xs => [.arr xs]
  | .objectConstr entries, v => (executeEntries entries v).map (List.map .obj)
  | .literal c, _ => .ok [c]
  | .binop op l r, v => do
    let xs ← execute l v
    let ys ← execute r v
    combineOp op xs ys
termination_by q _ => (sizeOf q, 0)

/-- Modelled from the spec: evaluation of the right-hand query of a pipe
against each output of the left, concatenating the streams in the order
the left outputs were produced. -/
def execList (q : Query) : List Value → Except QueryError (List Value)
  | [] => .ok []
  | x :: xs => do
    let ys ← execute q x
    let rest ← execList q xs
    .ok (ys ++ rest)
termination_by xs => (sizeOf q, 1 + xs.length)

/-- Modelled from the spec: object construction (the `construction`
module is missing from the sources).  Each entry contributes the
cartesian product of its key stream (keys must be strings) and value
stream, key varying slower; combinations of successive entries nest
with the first entry outermost. -/
def executeEntries : Entries → Value → Except QueryError (List (List (String × Value)))
  | .nil, _ => .ok [[]]
  | .cons k val rest, v => do
    let ks ← execute k v
    let ss ← keyStrs ks
    let vs ← execute val v
    let combos ← executeEntries rest v
    .ok ((ss.flatMap fun s => vs.map fun w => (s, w)).flatMap
      fun p => combos.map fun c => p :: c)
termination_by es _ => (sizeOf es, 0)
end

/-- Reduction of Except.map on a success. -/
@[simp] theorem except_map_ok {ε α β : Type} (f : α → β) (x : α) :
    Except.map f (Except.ok x : Except ε α) = .ok (f x) := rfl

/-- Reduction of Except.map on an error. -/
@[simp] theorem except_map_error {ε α β : Type} (f : α → β) (e : ε) :
    Except.map f (Except.error e : Except ε α) = .error e := rfl

/-- Reduction of the Except monad bind on a success. -/
@[simp] theorem except_bind_ok {ε α β : Type} (x : α) (f : α → Except ε β) :
    (Except.ok x : Except ε α) >>= f = f x := rfl

/-- Reduction of the Except monad bind on an error. -/
@[simp] theorem except_bind_error {ε α β : Type} (e : ε) (f : α → Except ε β) :
    (Except.error e : Except ε α) >>= f = .error e := rfl

/-- The index of the runtime variant of a value, used to state that the
type names embedded in errors identify variants uniquely. -/
def variantIdx : Value → Nat
  | .null => 0
  | .bool _ => 1
  | .number _ => 2
  | .str _ => 3
  | .arr _ => 4
  | .obj _ => 5

/-- The per-item output of an Optional node: the stream of the inner
query on success, the empty stream when the inner query fails. -/
def optOut (q : Query) (x : Value) : List Value :=
  match execute q x with
  | .ok ys => ys
  | .error _ => []

/-- Claim C10: type_str is total and maps each of the six value variants
to a distinct static name (null, bool, number, string, array, object),
so that a type name appearing in an error uniquely identifies the
runtime variant of the offending value. -/
theorem type_str_distinct :
    type_str .null = "null"
    ∧ (∀ b, type_str (.bool b) = "bool")
    ∧ (∀ n, type_str (.number n) = "number")
    ∧ (∀ s, type_str (.str s) = "string")
    ∧ (∀ xs, type_str (.arr xs) = "array")
    ∧ (∀ fs, type_str (.obj fs) = "object")
    ∧ (["null", "bool", "number", "string", "array", "object"] : List String).Nodup
    ∧ (∀ v w : Value, type_str v = type_str w ↔ variantIdx v = variantIdx w) := by
  refine ⟨rfl, fun _ => rfl, fun _ => rfl, fun _ => rfl, fun _ => rfl, fun _ => rfl,
    by decide, fun v w => ?_⟩
  cases v <;> cases w <;> simp [type_str, variantIdx]

/-- Claim C6: array construction yields exactly one output, a new Array
holding the whole inner stream in order; an empty inner stream yields
one empty array, never zero outputs. -/
theorem array_construction_single (inner : Query) (v : Value) (s : List Value)
    (h : execute inner v = .ok s) :
    execute (.arrayConstr inner) v = .ok [.arr s] := by
  simp [execute, h]

/-- Witness for C6: the query [ .foo? ] of the crate tests, on the input
[1, 2], yields exactly one output, the empty array. -/
theorem array_construction_single_witness :
    execute (.arrayConstr (.opt (.field "foo"))) (.arr [.number 1, .number 2])
      = .ok [.arr []] :=
  array_construction_single (.opt (.field "foo")) (.arr [.number 1, .number 2]) []
    (by simp [execute, indexField, type_str])

/-- The stream of an Optional node over a list of inputs: each failing
item contributes the empty stream, never an error. -/
theorem execList_opt (q : Query) (xs : List Value) :
    execList (.opt q) xs = .ok (xs.map (optOut q)).flatten := by
  induction xs with
  | nil => simp [execList]
  | cons x xs ih =>
    simp only [execList, execute, ih, optOut, List.map_cons, List.flatten_cons]
    cases execute q x <;> simp [Except.bind]

/-- Claim C5: wrapping a failing query in Optional turns the error into
the empty stream; the absorption is per input item: inside a pipe, only
the failing invocation contributes zero outputs. -/
theorem optional_absorbs (q : Query) (v : Value) :
    (∀ e, execute q v = .error e → execute (.opt q) v = .ok [])
    ∧ (∀ l, execute (.pipe l (.opt q)) v
        = (execute l v).map fun xs => (xs.map (optOut q)).flatten) := by
  constructor
  · intro e he
    simp [execute, he]
  · intro l
    simp only [execute]
    cases execute l v with
    | error e => rfl
    | ok xs => simp [Except.bind, execList_opt, Except.map]

/-- Witness for C5: iterating a number fails, and the Optional form
yields the empty stream; inside a pipe over [0, [1, 2]], only the failing
first item contributes zero outputs. -/
theorem optional_absorbs_witness :
    execute (.opt .iterate) (.number 5) = .ok []
    ∧ execute (.pipe .iterate (.opt .iterate))
        (.arr [.number 0, .arr [.number 1, .number 2]])
      = .ok [.number 1, .number 2] := by
  constructor
  · exact (optional_absorbs .iterate (.number 5)).1 (.iter "number")
      (by simp [execute, iterateVals, type_str])
  · have h := (optional_absorbs .iterate
      (.arr [.number 0, .arr [.number 1, .number 2]])).2 .iterate
    simpa [execute, iterateVals, optOut] using h

/-- Reduction of pure in the Except monad. -/
@[simp] theorem except_pure {ε α : Type} (x : α) :
    (pure x : Except ε α) = .ok x := rfl

/-- The right-hand side of a pipe, run over a list of left outputs, is
the monadic flat-map of the evaluator over that list. -/
theorem execList_eq_mapM (q : Query) (xs : List Value) :
    execList q xs = (xs.mapM (execute q)).map List.flatten := by
  induction xs with
  | nil =>
    simp only [execList]
    rfl
  | cons x xs ih =>
    simp only [execList, List.mapM_cons, ih]
    cases execute q x with
    | error e => simp
    | ok ys =>
      cases hm : xs.mapM (execute q) <;> simp [hm]

/-- Claim C1: a pipe evaluates the left query against the input and, for
each output in order, the right query against that output, flattening
the streams in the order the left outputs were produced; a split
evaluates both queries fully against the same input and appends the
whole right stream after the whole left stream. -/
theorem pipe_split_semantics (l r : Query) (v : Value) :
    execute (.pipe l r) v
      = (execute l v) >>= (fun xs => (xs.mapM (execute r)).map List.flatten)
    ∧ execute (Query.split l r) v
      = (execute l v) >>= (fun xs => (execute r v).map (fun ys => xs ++ ys)) := by
  constructor
  · simp only [execute]
    cases execute l v <;> simp [execList_eq_mapM]
  · simp only [execute]
    cases execute l v <;> cases execute r v <;> simp

/-- Claim C2: the field query .k returns the value bound to k, or Null
when the object lacks k; on Null it returns Null; on any value that is
neither an object nor Null it fails with Index(actualType, "string"). -/
theorem field_access (k : String) :
    (∀ fields w, fields.lookup k = some w →
        execute (.field k) (.obj fields) = .ok [w])
    ∧ (∀ fields, fields.lookup k = none →
        execute (.field k) (.obj fields) = .ok [.null])
    ∧ execute (.field k) .null = .ok [.null]
    ∧ ∀ v, (∀ fs, v ≠ .obj fs) → v ≠ .null →
        execute (.field k) v = .error (.index (type_str v) "string") := by
  refine ⟨?_, ?_, by simp [execute, indexField], ?_⟩
  · intro fields w h
    simp [execute, indexField, h]
  · intro fields h
    simp [execute, indexField, h]
  · intro v hobj hnull
    cases v
    case obj fs => exact absurd rfl (hobj fs)
    case null => exact absurd rfl hnull
    all_goals simp [execute, indexField]

/-- Witness for C2: the field foo on the test objects of the crate, and
the Index error on a boolean input. -/
theorem field_access_witness :
    execute (.field "foo") (.obj [("foo", .number 42), ("bar", .str "x")])
      = .ok [.number 42]
    ∧ execute (.field "foo") (.obj [("notfoo", .bool true)]) = .ok [.null]
    ∧ execute (.field "foo") (.bool true) = .error (.index "bool" "string") :=
  ⟨(field_access "foo").1 _ _ rfl, (field_access "foo").2.1 _ rfl,
    (field_access "foo").2.2.2 (.bool true)
      (fun _ h => Value.noConfusion h) (fun h => Value.noConfusion h)⟩

/-- Claim C3: the index query .[n] on an array counts negative indices
from the end (with -1 selecting the last element), yields Null on any
out-of-bounds index, yields Null on a Null input, and fails with
Index(actualType, "number") on any value that is neither an array nor
Null. -/
theorem array_index_cases (n : Int) :
    (∀ xs : List Value, 0 ≤ n → n < xs.length →
        execute (.index n) (.arr xs) = .ok [xs.getD n.toNat .null])
    ∧ (∀ xs : List Value, n < 0 → 0 ≤ n + xs.length →
        execute (.index n) (.arr xs) = .ok [xs.getD (n + xs.length).toNat .null])
    ∧ (∀ (xs : List Value) (x : Value),
        execute (.index (-1)) (.arr (xs ++ [x])) = .ok [x])
    ∧ (∀ xs : List Value, (xs.length : Int) ≤ n ∨ n + xs.length < 0 →
        execute (.index n) (.arr xs) = .ok [.null])
    ∧ execute (.index n) .null = .ok [.null]
    ∧ ∀ v, (∀ xs, v ≠ .arr xs) → v ≠ .null →
        execute (.index n) v = .error (.index (type_str v) "number") := by
  refine ⟨?_, ?_, ?_, ?_, by simp [execute, indexArray], ?_⟩
  · intro xs h0 hlt
    have hn : ¬ n < 0 := by omega
    simp only [execute, indexArray, if_neg hn, if_pos (And.intro h0 hlt)]
    rfl
  · intro xs hn h0
    have hlt : n + (xs.length : Int) < xs.length := by omega
    simp only [execute, indexArray, if_pos hn, if_pos (And.intro h0 hlt)]
    rfl
  · intro xs x
    have hn : (-1 : Int) < 0 := by norm_num
    have h0 : (0 : Int) ≤ -1 + (xs ++ [x]).length := by
      simp only [List.length_append, List.length_cons, List.length_nil]
      omega
    have hlt : -1 + ((xs ++ [x]).length : Int) < (xs ++ [x]).length := by omega
    simp only [execute, indexArray, if_pos hn, if_pos (And.intro h0 hlt)]
    have hidx : (-1 + ((xs ++ [x]).length : Int)).toNat = xs.length := by
      simp only [List.length_append, List.length_cons, List.length_nil]
      omega
    rw [hidx]
    simp [List.getD]
  · intro xs hoob
    by_cases hn : n < 0
    · have : ¬ (0 ≤ n + (xs.length : Int) ∧ n + (xs.length : Int) < xs.length) := by
        omega
      simp only [execute, indexArray, if_pos hn, if_neg this]
      rfl
    · have : ¬ (0 ≤ n ∧ n < (xs.length : Int)) := by omega
      simp only [execute, indexArray, if_neg hn, if_neg this]
      rfl
  · intro v harr hnull
    cases v
    case arr xs => exact absurd rfl (harr xs)
    case null => exact absurd rfl hnull
    all_goals simp [execute, indexArray]

/-- Witness for C3: the crate test cases .[-2] on [1,2,3], .[2] on a
two-element array, .[0] in bounds, indexing Null, and the Index error on
a string input. -/
theorem array_index_cases_witness :
    execute (.index (-2)) (.arr [.number 1, .number 2, .number 3])
      = .ok [.number 2]
    ∧ execute (.index 0) (.arr [.bool true, .bool false]) = .ok [.bool true]
    ∧ execute (.index 2) (.arr [.bool true, .bool false]) = .ok [.null]
    ∧ execute (.index 7) .null = .ok [.null]
    ∧ execute (.index 0) (.str "abc") = .error (.index "string" "number") := by
  refine ⟨?_, ?_, ?_, (array_index_cases 7).2.2.2.2.1, ?_⟩
  · exact (array_index_cases (-2)).2.1 [.number 1, .number 2, .number 3]
      (by norm_num) (by simp)
  · exact (array_index_cases 0).1 [.bool true, .bool false] le_rfl (by simp)
  · exact (array_index_cases 2).2.2.2.1 [.bool true, .bool false] (by simp)
  · exact (array_index_cases 0).2.2.2.2.2 (.str "abc")
      (fun _ h => Value.noConfusion h) (fun h => Value.noConfusion h)

/-- Claim C4: the slice query .[from:to] succeeds exactly on arrays and
strings, failing with Index(actualType, "range") elsewhere; a missing
lower bound defaults to 0 and a missing upper bound to the length;
negative bounds count from the end and resolved bounds are clamped into
[0, length]; the result preserves order (it is a sublist of the input),
and an inverted range yields an empty result, never an error. -/
theorem slice_semantics (lo hi : Option Int) :
    (∀ xs : List Value,
        execute (.slice lo hi) (.arr xs) = .ok [.arr (sliceList xs lo hi)]
        ∧ (sliceList xs lo hi).Sublist xs)
    ∧ (∀ s : String,
        execute (.slice lo hi) (.str s)
          = .ok [.str (sliceList s.toList lo hi).asString]
        ∧ (sliceList s.toList lo hi).Sublist s.toList)
    ∧ (∀ xs : List Value, execute (.slice none none) (.arr xs) = .ok [.arr xs])
    ∧ (∀ xs : List Value,
        execute (.slice none hi) (.arr xs)
          = execute (.slice (some 0) hi) (.arr xs))
    ∧ (∀ xs : List Value,
        execute (.slice lo none) (.arr xs)
          = execute (.slice lo (some (xs.length : Int))) (.arr xs))
    ∧ (∀ (len : Nat) (b : Int),
        resolveBound len b ≤ len
        ∧ (0 ≤ b → b ≤ len → resolveBound len b = b.toNat)
        ∧ (b < 0 → 0 ≤ b + len → resolveBound len b = (b + len).toNat)
        ∧ ((len : Int) ≤ b → resolveBound len b = len)
        ∧ (b + len ≤ 0 → resolveBound len b = 0))
    ∧ (∀ (xs : List Value) (f t : Int),
        resolveBound xs.length t ≤ resolveBound xs.length f →
        execute (.slice (some f) (some t)) (.arr xs) = .ok [.arr []])
    ∧ ∀ v, (∀ xs, v ≠ .arr xs) → (∀ s, v ≠ .str s) →
        execute (.slice lo hi) v = .error (.index (type_str v) "range") := by
  have hsub : ∀ (α : Type) (xs : List α) (l h : Nat),
      ((xs.take h).drop l).Sublist xs :=
    fun α xs l h => (List.drop_sublist l _).trans (List.take_sublist h xs)
  have hres : ∀ (len : Nat) (b : Int),
      resolveBound len b ≤ len
      ∧ (0 ≤ b → b ≤ len → resolveBound len b = b.toNat)
      ∧ (b < 0 → 0 ≤ b + len → resolveBound len b = (b + len).toNat)
      ∧ ((len : Int) ≤ b → resolveBound len b = len)
      ∧ (b + len ≤ 0 → resolveBound len b = 0) := by
    intro len b
    simp only [resolveBound]
    by_cases hb : b < 0
    · rw [if_pos hb]
      refine ⟨by omega, by omega, by omega, by omega, by omega⟩
    · rw [if_neg hb]
      refine ⟨by omega, by omega, by omega, by omega, by omega⟩
  refine ⟨fun xs => ⟨by simp [execute, sliceVal], hsub _ _ _ _⟩,
    fun s => ⟨by simp [execute, sliceVal], hsub _ _ _ _⟩, ?_, ?_, ?_, hres, ?_, ?_⟩
  · intro xs
    simp [execute, sliceVal, sliceList]
  · intro xs
    have : resolveBound xs.length 0 = 0 := by
      simp only [resolveBound]
      rw [if_neg (by omega)]
      omega
    simp [execute, sliceVal, sliceList, this]
  · intro xs
    have : resolveBound xs.length (xs.length : Int) = xs.length := by
      simp only [resolveBound]
      rw [if_neg (by omega)]
      omega
    simp [execute, sliceVal, sliceList, this]
  · intro xs f t hinv
    have hnil : sliceList xs (some f) (some t) = [] := by
      simp only [sliceList, Option.map_some, Option.getD_some]
      refine List.drop_eq_nil_of_le ?_
      calc (xs.take (resolveBound xs.length t)).length
          ≤ resolveBound xs.length t := by
            simp [List.length_take]
        _ ≤ resolveBound xs.length f := hinv
    simp [execute, sliceVal, hnil]
  · intro v harr hstr
    cases v
    case arr xs => exact absurd rfl (harr xs)
    case str s => exact absurd rfl (hstr s)
    all_goals simp [execute, sliceVal]

/-- Witness for C4: the crate test slices .[2:4] on an array and a
string, the open-ended .[-2:], an inverted range, a clamped resolved
bound, and the Index error on a number input. -/
theorem slice_semantics_witness :
    execute (.slice (some 2) (some 4))
        (.arr [.str "a", .str "b", .str "c", .str "d", .str "e"])
      = .ok [.arr [.str "c", .str "d"]]
    ∧ execute (.slice (some 2) (some 4)) (.str "abcdefghi") = .ok [.str "cd"]
    ∧ execute (.slice (some 3) (some 1)) (.arr [.number 1, .number 2, .number 3])
      = .ok [.arr []]
    ∧ resolveBound 3 (-10) = 0
    ∧ execute (.slice (some 0) (some 1)) (.number 7)
      = .error (.index "number" "range") := by
  refine ⟨?_, ?_, ?_, ?_, ?_⟩
  · rw [((slice_semantics (some 2) (some 4)).1
      [.str "a", .str "b", .str "c", .str "d", .str "e"]).1]
    rfl
  · rw [((slice_semantics (some 2) (some 4)).2.1 "abcdefghi").1]
    rfl
  · exact (slice_semantics (some 3) (some 1)).2.2.2.2.2.2.1
      [.number 1, .number 2, .number 3] 3 1 (by decide)
  · exact ((slice_semantics none none).2.2.2.2.2.1 3 (-10)).2.2.2.2 (by norm_num)
  · exact (slice_semantics (some 0) (some 1)).2.2.2.2.2.2.2 (.number 7)
      (fun _ h => Value.noConfusion h) (fun _ h => Value.noConfusion h)

/-- Following the claim words: the ordered cartesian product of the per
entry pair streams, the first entry varying slowest (outermost) and the
last entry varying fastest (innermost), one combination per output. -/
def cartesianCombos : List (List (String × Value)) → List (List (String × Value))
  | [] => [[]]
  | ps :: rest => ps.flatMap fun p => (cartesianCombos rest).map fun c => p :: c

/-- The per-entry pair streams of an object construction: for each entry
in order, the cartesian product of its key stream (keys must resolve to
strings, else ObjectKey aborts) with its value stream, key varying
slower. -/
def pairStreams : Entries → Value → Except QueryError (List (List (String × Value)))
  | .nil, _ => .ok []
  | .cons k val rest, v => do
    let ks ← execute k v
    let ss ← keyStrs ks
    let vs ← execute val v
    let rest2 ← pairStreams rest v
    .ok ((ss.flatMap fun s => vs.map fun w => (s, w)) :: rest2)

/-- Object construction evaluates to the ordered cartesian product of
the per-entry pair streams, the first entry outermost. -/
theorem executeEntries_eq_cartesian : ∀ (entries : Entries) (v : Value),
    executeEntries entries v = (pairStreams entries v).map cartesianCombos
  | .nil, v => by
    simp [executeEntries, pairStreams, cartesianCombos]
  | .cons k val rest, v => by
    have ih := executeEntries_eq_cartesian rest v
    simp only [executeEntries, pairStreams, ih]
    cases execute k v with
    | error e => simp
    | ok ks =>
      simp only [except_bind_ok]
      cases keyStrs ks with
      | error e => simp
      | ok ss =>
        simp only [except_bind_ok]
        cases execute val v with
        | error e => simp
        | ok vs =>
          simp only [except_bind_ok]
          cases pairStreams rest v with
          | error e => simp
          | ok rs => simp [cartesianCombos]

/-- Claim C7: the output stream of an object construction is the ordered
cartesian product of the per-entry streams, entry 1 varying slowest and
entry N fastest, one object per combination built from the ordered
(key, value) pairs; on the crate test input, { user, title: .titles[] }
yields the two objects in the claimed order. -/
theorem object_construction_cartesian (entries : Entries) (v : Value) :
    (execute (.objectConstr entries) v
      = ((pairStreams entries v).map cartesianCombos).map (List.map .obj))
    ∧ execute (.objectConstr (.cons (.literal (.str "user")) (.field "user")
          (.cons (.literal (.str "title")) (.pipe (.field "titles") .iterate)
            .nil)))
        (.obj [("user", .str "stedolan"),
          ("titles", .arr [.str "JQ Primer", .str "More JQ"])])
      = .ok [.obj [("user", .str "stedolan"), ("title", .str "JQ Primer")],
          .obj [("user", .str "stedolan"), ("title", .str "More JQ")]] := by
  constructor
  · simp only [execute, executeEntries_eq_cartesian]
  · simp [execute, executeEntries, keyStrs, keyStr, indexField, iterateVals,
      execList, List.lookup]

/-- Lookup distributes over list append, preferring the left list. -/
theorem lookup_append {β : Type} (l₁ l₂ : List (String × β)) (k : String) :
    (l₁ ++ l₂).lookup k = (l₁.lookup k).or (l₂.lookup k) := by
  induction l₁ with
  | nil => simp [List.lookup]
  | cons p l₁ ih =>
    simp only [List.cons_append, List.lookup]
    cases k == p.1 <;> simp [ih]

/-- Lookup in the overridden left part of a merge: the key keeps its
left position, the value comes from the right operand when bound
there. -/
theorem lookup_map_value {β : Type} (fs gs : List (String × β)) (k : String) :
    (fs.map fun p => (p.1, (gs.lookup p.1).getD p.2)).lookup k
      = (fs.lookup k).map fun w => (gs.lookup k).getD w := by
  induction fs with
  | nil => simp [List.lookup]
  | cons p fs ih =>
    simp only [List.map_cons, List.lookup]
    cases hk : k == p.1 with
    | false => simp [ih]
    | true =>
      have : k = p.1 := eq_of_beq hk
      subst this
      simp

/-- Lookup in a filtered list misses keys the filter rejects. -/
theorem lookup_filter_rejected {β : Type} (gs : List (String × β)) (k : String)
    (p : String × β → Bool) (h : ∀ w, p (k, w) = false) :
    (gs.filter p).lookup k = none := by
  induction gs with
  | nil => simp [List.lookup]
  | cons q gs ih =>
    simp only [List.filter]
    cases hq : p q with
    | false => simpa using ih
    | true =>
      simp only [List.lookup]
      cases hk : k == q.1 with
      | false => simpa using ih
      | true =>
        have hkq : k = q.1 := eq_of_beq hk
        have : p (k, q.2) = true := by rw [hkq]; simpa using hq
        rw [h q.2] at this
        exact absurd this (by simp)

/-- Lookup in a filtered list agrees with the unfiltered list on keys
the filter accepts. -/
theorem lookup_filter_accepted {β : Type} (gs : List (String × β)) (k : String)
    (p : String × β → Bool) (h : ∀ w, p (k, w) = true) :
    (gs.filter p).lookup k = gs.lookup k := by
  induction gs with
  | nil => simp
  | cons q gs ih =>
    simp only [List.filter]
    cases hq : p q with
    | true =>
      simp only [List.lookup]
      cases hk : k == q.1 <;> simp [ih]
    | false =>
      simp only [List.lookup]
      cases hk : k == q.1 with
      | false => simpa [hk] using ih
      | true =>
        have hkq : k = q.1 := eq_of_beq hk
        have : p (k, q.2) = true := h q.2
        rw [hkq] at this
        simp only [Prod.mk.eta] at this
        rw [hq] at this
        exact absurd this (by simp)

/-- The shallow merge resolves every key to the right-hand value when
the right operand binds it, and to the left-hand value otherwise. -/
theorem lookup_mergeObj (fs gs : List (String × Value)) (k : String) :
    (mergeObj fs gs).lookup k = (gs.lookup k).or (fs.lookup k) := by
  simp only [mergeObj, lookup_append, lookup_map_value]
  cases hf : fs.lookup k with
  | some w =>
    rw [lookup_filter_rejected gs k _ (fun w => by simp [hf])]
    cases hg : gs.lookup k <;> simp
  | none =>
    rw [lookup_filter_accepted gs k _ (fun w => by simp [hf])]
    cases hg : gs.lookup k <;> simp

/-- Following the claim words: the type pairs for which the operator +
is defined. -/
def addDefined : Value → Value → Bool
  | .number _, .number _ => true
  | .str _, .str _ => true
  | .arr _, .arr _ => true
  | .obj _, .obj _ => true
  | .null, _ => true
  | _, .null => true
  | _, _ => false

/-- Claim C8: the operator + adds numbers, concatenates strings and
arrays, shallow-merges objects with right-hand keys overriding, leaves
the other operand unchanged when either side is Null, and fails with
Operation("add", t1, t2) on every other type pair; the evaluator applies
it to the operand values. -/
theorem addition_dispatch :
    (∀ a b : ℚ, opAdd (.number a) (.number b) = .ok (.number (a + b)))
    ∧ (∀ s t : String, opAdd (.str s) (.str t) = .ok (.str (s ++ t)))
    ∧ (∀ xs ys : List Value, opAdd (.arr xs) (.arr ys) = .ok (.arr (xs ++ ys)))
    ∧ (∀ fs gs, opAdd (.obj fs) (.obj gs) = .ok (.obj (mergeObj fs gs)))
    ∧ (∀ fs gs k, (mergeObj fs gs).lookup k = (gs.lookup k).or (fs.lookup k))
    ∧ (∀ x, opAdd .null x = .ok x ∧ opAdd x .null = .ok x)
    ∧ (∀ a b, addDefined a b = false →
        opAdd a b = .error (.operation "add" (type_str a) (type_str b)))
    ∧ ∀ a b v, execute (.binop .add (.literal a) (.literal b)) v
        = (opAdd a b).map fun z => [z] := by
  refine ⟨fun a b => rfl, fun s t => rfl, fun xs ys => rfl, fun fs gs => rfl,
    lookup_mergeObj, fun x => ⟨by cases x <;> rfl, by cases x <;> rfl⟩, ?_, ?_⟩
  · intro a b h
    cases a <;> cases b <;> first | rfl | simp [addDefined] at h
  · intro a b v
    simp only [execute, except_bind_ok]
    cases h : opAdd a b <;>
      simp [combineOp, combineOp.combineRow, applyOp, h]

/-- Witness for C8: adding a boolean and a number fails with the add
Operation error; the crate test merge {a:1} + {a:42} resolves a to 42;
1 + null keeps 1; and the evaluator computes 7 + 1 = 8. -/
theorem addition_dispatch_witness :
    opAdd (.bool true) (.number 1) = .error (.operation "add" "bool" "number")
    ∧ (mergeObj [("a", .number 1)] [("a", .number 42)]).lookup "a"
      = some (.number 42)
    ∧ opAdd (.number 1) .null = .ok (.number 1)
    ∧ execute (.binop .add (.literal (.number 7)) (.literal (.number 1)))
        (.obj []) = .ok [.number 8] := by
  refine ⟨addition_dispatch.2.2.2.2.2.2.1 (.bool true) (.number 1) rfl,
    ?_, (addition_dispatch.2.2.2.2.2.1 (.number 1)).2, ?_⟩
  · rw [addition_dispatch.2.2.2.2.1 [("a", .number 1)] [("a", .number 42)] "a"]
    rfl
  · rw [addition_dispatch.2.2.2.2.2.2.2 (.number 7) (.number 1) (.obj [])]
    have h7 : (7 : ℚ) + 1 = 8 := by norm_num
    rw [addition_dispatch.1 7 1, h7]
    rfl

/-- Following the claim words: the type pairs for which the operator /
is defined. -/
def divDefined : Value → Value → Bool
  | .number _, .number _ => true
  | .str _, .str _ => true
  | _, _ => false

/-- Counterexample for C9: dividing the string "abc" by the empty
string separator does not yield the split into substrings; it fails
with the divide Operation error, so the unrestricted string-split
clause of the claim is false at this input. -/
theorem division_empty_separator :
    opDiv (.str "abc") (.str "")
      = .error (.operation "divide" "string" "string")
    ∧ opDiv (.str "abc") (.str "")
      ≠ .ok (.arr (("abc".splitOn "").map .str)) := by
  refine ⟨rfl, fun h => ?_⟩
  rw [show opDiv (.str "abc") (.str "")
    = .error (.operation "divide" "string" "string") from rfl] at h
  exact Except.noConfusion h

/-- Claim C9 (amended): the operator / divides numbers, failing
Numerical when the divisor is zero; when both operands are strings and
the separator is non-empty it splits the left string by the right
string as separator into an array of substrings, while an empty string
separator fails with Operation("divide", "string", "string"); and it
fails with Operation("divide", t1, t2) on every other type pair; the
evaluator applies it to the operand values. -/
theorem division_dispatch :
    (∀ a b : ℚ, b ≠ 0 → opDiv (.number a) (.number b) = .ok (.number (a / b)))
    ∧ (∀ a : ℚ, opDiv (.number a) (.number 0) = .error .numerical)
    ∧ (∀ s t : String, t ≠ "" →
        opDiv (.str s) (.str t) = .ok (.arr ((s.splitOn t).map .str)))
    ∧ (∀ s : String, opDiv (.str s) (.str "")
        = .error (.operation "divide" "string" "string"))
    ∧ (∀ a b, divDefined a b = false →
        opDiv a b = .error (.operation "divide" (type_str a) (type_str b)))
    ∧ ∀ a b v, execute (.binop .div (.literal a) (.literal b)) v
        = (opDiv a b).map fun z => [z] := by
  refine ⟨?_, fun a => by simp [opDiv], ?_, fun s => by simp [opDiv], ?_, ?_⟩
  · intro a b h
    simp [opDiv, if_neg h]
  · intro s t h
    simp [opDiv, if_neg h]
  · intro a b h
    cases a <;> cases b <;> first | rfl | simp [divDefined] at h
  · intro a b v
    simp only [execute, except_bind_ok]
    cases h : opDiv a b <;>
      simp [combineOp, combineOp.combineRow, applyOp, h]

/-- Witness for C9: 10 / 5 evaluates to 2, 10 / 0 fails Numerical, the
crate test string "a, b,c,d, e" splits by the non-empty separator ", ",
dividing an array by a number fails with the divide Operation error,
and the evaluator propagates the Numerical failure of 10 / 0. -/
theorem division_dispatch_witness :
    opDiv (.number 10) (.number 5) = .ok (.number 2)
    ∧ opDiv (.number 10) (.number 0) = .error .numerical
    ∧ opDiv (.str "a, b,c,d, e") (.str ", ")
      = .ok (.arr (("a, b,c,d, e".splitOn ", ").map .str))
    ∧ opDiv (.arr []) (.number 1)
      = .error (.operation "divide" "array" "number")
    ∧ execute (.binop .div (.literal (.number 10)) (.literal (.number 0)))
        (.null) = .error .numerical := by
  refine ⟨?_, division_dispatch.2.1 10,
    division_dispatch.2.2.1 "a, b,c,d, e" ", " (by decide),
    division_dispatch.2.2.2.2.1 (.arr []) (.number 1) rfl, ?_⟩
  · have h := division_dispatch.1 10 5 (by norm_num)
    have h2 : (10 : ℚ) / 5 = 2 := by norm_num
    rw [h2] at h
    exact h
  · rw [division_dispatch.2.2.2.2.2 (.number 10) (.number 0) .null,
      division_dispatch.2.1 10]
    rfl

end Rq
